import Mathlib

/-!
Shallow embedding of `combine_labels.py`: a batch script that merges
per-file time-series CSV data with externally supplied anomaly timestamp
labels.  Tables are modelled as a column-name list plus row-major cell
lists; the pandas timestamp parser is modelled by an executable parser of
ISO-like `YYYY-MM-DDTHH:MM:SS` strings into a linearised `Nat` encoding
(exact equality of parsed values is all the script ever uses).  Python
exceptions raised during per-file processing are modelled as `none`
results; the label-index JSON load outcome is passed in as an `Option`
since a load failure propagates out of the orchestrator uncaught.
-/

set_option autoImplicit false

/-- A cell of a table: a raw string as read from CSV, a parsed temporal
value (result of `pd.to_datetime`), or an integer (the label values the
script writes). -/
inductive Cell where
  | str (s : String)
  | time (t : Nat)
  | int (n : Int)
  deriving DecidableEq, Repr

/-- A data table: column names plus row-major cells, as `pd.read_csv`
produces. -/
structure DataFrame where
  cols : List String
  rows : List (List Cell)
  deriving DecidableEq, Repr

/-- Every row has exactly one cell per column (pandas frames are
rectangular by construction). -/
def wellFormed (df : DataFrame) : Prop :=
  ∀ r ∈ df.rows, r.length = df.cols.length

instance (df : DataFrame) : Decidable (wellFormed df) := by
  unfold wellFormed; infer_instance

/-- Split a character list at every occurrence of `c`. -/
def splitOnChar (c : Char) : List Char → List (List Char)
  | [] => [[]]
  | a :: rest =>
    let r := splitOnChar c rest
    if a = c then [] :: r
    else
      match r with
      | [] => [[a]]
      | g :: gs => (a :: g) :: gs

/-- Accumulate decimal digits into a `Nat`; `none` on a non-digit. -/
def parseNatAux : List Char → Nat → Option Nat
  | [], acc => some acc
  | c :: rest, acc =>
    if c.isDigit then parseNatAux rest (acc * 10 + (c.toNat - 48)) else none

/-- Parse a nonempty all-digit character list as a `Nat`. -/
def parseNatDigits : List Char → Option Nat
  | [] => none
  | c :: rest => parseNatAux (c :: rest) 0

/-- Model of `pd.to_datetime` on a single string: parses
`YYYY-MM-DDTHH:MM:SS` into a linear `Nat` timestamp (any two distinct
wall-clock times map to distinct numbers); `none` models a parse
exception. -/
def parseTimestamp (s : String) : Option Nat :=
  match splitOnChar 'T' s.data with
  | [d, t] =>
    match splitOnChar '-' d, splitOnChar ':' t with
    | [y, mo, da], [h, mi, se] =>
      match parseNatDigits y, parseNatDigits mo, parseNatDigits da,
            parseNatDigits h, parseNatDigits mi, parseNatDigits se with
      | some yn, some mon, some dan, some hn, some minn, some sen =>
        if 1 ≤ mon ∧ mon ≤ 12 ∧ 1 ≤ dan ∧ dan ≤ 31 ∧
            hn ≤ 23 ∧ minn ≤ 59 ∧ sen ≤ 59 then
          some (((((yn * 12 + (mon - 1)) * 31 + (dan - 1)) * 24 + hn) * 60
            + minn) * 60 + sen)
        else none
      | _, _, _, _, _, _ => none
    | _, _ => none
  | _ => none

/-- Index of the first column with the given name (`df[name]` resolution);
`none` models a `KeyError`. -/
def colIndexL (name : String) : List String → Option Nat
  | [] => none
  | c :: rest => if c = name then some 0 else (colIndexL name rest).map (· + 1)

/-- Column lookup on a table. -/
def colIndex (df : DataFrame) (name : String) : Option Nat :=
  colIndexL name df.cols

/-- Model of `df['timestamp'] = pd.to_datetime(df['timestamp'])`: replace the cell
at index `ti` of every row by its parsed temporal value; `none` models the
exception raised on a missing or unparsable value. -/
def parseTsColumn (ti : Nat) : List (List Cell) → Option (List (List Cell))
  | [] => some []
  | r :: rs =>
    match r.get? ti with
    | some (Cell.str s) =>
      match parseTimestamp s with
      | some t =>
        match parseTsColumn ti rs with
        | some rest => some (r.set ti (Cell.time t) :: rest)
        | none => none
      | none => none
    | _ => none

/-- Model of `[pd.to_datetime(ts) for ts in anomaly_timestamps]`. -/
def parseTimes : List String → Option (List Nat)
  | [] => some []
  | s :: rest =>
    match parseTimestamp s, parseTimes rest with
    | some t, some l => some (t :: l)
    | _, _ => none

/-- Model of `df.loc[df['timestamp'].isin(anomaly_times), 'anomaly'] = 1` on one
row: set the cell at `ai` to 1 when the parsed timestamp at `ti` is in
`anomaly_times`. -/
def markRow (ti ai : Nat) (anomaly_times : List Nat) (r : List Cell) :
    List Cell :=
  match r.get? ti with
  | some (Cell.time t) =>
    if t ∈ anomaly_times then r.set ai (Cell.int 1) else r
  | _ => r

/-- Embedding of `process_csv_file` (lines 13-40 of `combine_labels.py`): parse the
`timestamp` column, initialise an `anomaly` column to 0 (overwriting in
place if a column of that name already exists, else appending it, as
pandas column assignment does), and set it to 1 on rows whose parsed
timestamp is in the parsed anomaly list.  `none` models any exception
escaping the function. -/
def process_csv_file (df : DataFrame) (anomaly_timestamps : List String) :
    Option DataFrame :=
  match colIndex df "timestamp" with
  | none => none
  | some ti =>
    match parseTsColumn ti df.rows with
    | none => none
    | some rows1 =>
      let p : List String × List (List Cell) :=
        match colIndex df "anomaly" with
        | some ai => (df.cols, rows1.map (fun r => r.set ai (Cell.int 0)))
        | none => (df.cols ++ ["anomaly"],
                   rows1.map (fun r => r ++ [Cell.int 0]))
      let cols2 := p.1
      let rows2 := p.2
      if anomaly_timestamps.isEmpty then some ⟨cols2, rows2⟩
      else
        match parseTimes anomaly_timestamps with
        | none => none
        | some anomaly_times =>
          let ai := (colIndexL "anomaly" cols2).getD 0
          some ⟨cols2, rows2.map (markRow ti ai anomaly_times)⟩

/-- Per-file total row count, `len(df)` (line 79). -/
def total_points (df : DataFrame) : Nat := df.rows.length

/-- Sum of the integer cells at column index `ai`. -/
def sumLabels (ai : Nat) : List (List Cell) → Int
  | [] => 0
  | r :: rest =>
    (match r.get? ai with
     | some (Cell.int n) => n
     | _ => 0) + sumLabels ai rest

/-- Per-file anomaly count, `df['anomaly'].sum()` (line 80). -/
def anomaly_points (df : DataFrame) : Int :=
  match colIndex df "anomaly" with
  | some ai => sumLabels ai df.rows
  | none => 0

/-- The anomaly-column cells of a table, row by row. -/
def labelValues (df : DataFrame) : List (Option Cell) :=
  match colIndex df "anomaly" with
  | some ai => df.rows.map (fun r => r.get? ai)
  | none => []

/-- Filesystem model: an association list from path to table contents;
a later write shadows earlier ones. -/
abbrev FS : Type := List (String × DataFrame)

/-- Lookup modelling `os.path.exists` and file reads: the most recent table written at `p`. -/
def fsGet : FS → String → Option DataFrame
  | [], _ => none
  | (q, df) :: rest, p => if q = p then some df else fsGet rest p

/-- Write modelling `df.to_csv(p)`, shadowing any previous contents. -/
def fsSet (fs : FS) (p : String) (df : DataFrame) : FS := (p, df) :: fs

/-- Path resolution, `os.path.join(dir, p)`. -/
def pathJoin (dir p : String) : String := dir ++ "/" ++ p

/-- Run counters, the ordered write log, and the resulting filesystem of
one orchestrator invocation. -/
structure RunState where
  processed_count : Nat
  error_count : Nat
  writes : List (String × DataFrame)
  fs : FS
  deriving DecidableEq, Repr

/-- The per-entry loop of `combine_datasets_with_labels` (lines 63-102):
for each `(file_path, anomaly_timestamps)` entry, skip-and-count if the
resolved file is missing, count an error if processing raises, otherwise
write the labeled table to the mirrored path (`output_dir` set) or back
over the original (`output_dir` absent) and count it processed. -/
def processEntries (data_dir : String) (output_dir : Option String) :
    List (String × List String) → RunState → RunState
  | [], st => st
  | (file_path, anomaly_timestamps) :: rest, st =>
    let full_csv_path := pathJoin data_dir file_path
    match fsGet st.fs full_csv_path with
    | none =>
      processEntries data_dir output_dir rest
        { st with error_count := st.error_count + 1 }
    | some df =>
      match process_csv_file df anomaly_timestamps with
      | none =>
        processEntries data_dir output_dir rest
          { st with error_count := st.error_count + 1 }
      | some out =>
        let dest :=
          match output_dir with
          | some od => pathJoin od file_path
          | none => full_csv_path
        processEntries data_dir output_dir rest
          { st with
              processed_count := st.processed_count + 1
              writes := st.writes ++ [(dest, out)]
              fs := fsSet st.fs dest out }

/-- Embedding of `combine_datasets_with_labels` (lines 42-106): `labels_load` is the
outcome of `load_labels` (`none` models a `LabelLoadError`, i.e. an
exception from `open`/`json.load`, which propagates uncaught); on success
the label-index entries are processed in order starting from zero
counters, an empty write log, and the given filesystem. -/
def combine_datasets_with_labels (fs : FS) (data_dir : String)
    (labels_load : Option (List (String × List String)))
    (output_dir : Option String) : Option RunState :=
  match labels_load with
  | none => none
  | some labels => some (processEntries data_dir output_dir labels ⟨0, 0, [], fs⟩)

/-- The two output modes of `main`. -/
inductive RunMode where
  | overwrite
  | mirrored
  deriving DecidableEq, Repr

/-- The interactive choice in `main` (lines 129-137): exactly the input
`"2"` selects mirrored output; anything else overwrites in place. -/
def chooseRunMode (choice : String) : RunMode :=
  if choice = "2" then RunMode.mirrored else RunMode.overwrite

/-- The spec's scenario input table: three rows five seconds apart. -/
def sensorA : DataFrame :=
  ⟨["timestamp", "value"],
   [[Cell.str "2024-01-01T00:00:00", Cell.str "1.0"],
    [Cell.str "2024-01-01T00:00:05", Cell.str "2.0"],
    [Cell.str "2024-01-01T00:00:10", Cell.str "3.0"]]⟩

/-- The spec's scenario anomaly list for `sensorA.csv`. -/
def sensorALabels : List String := ["2024-01-01T00:00:05"]

/-- The labeled table the script produces on the scenario input. -/
def sensorAOut : DataFrame :=
  (process_csv_file sensorA sensorALabels).getD ⟨[], []⟩

/-! ### List helper lemmas -/

theorem getq_set_self {α : Type} (l : List α) (i : Nat) (a : α)
    (h : i < l.length) : (l.set i a).get? i = some a := by
  induction l generalizing i with
  | nil => exact absurd h (Nat.not_lt_zero i)
  | cons b l ih =>
    cases i with
    | zero => rfl
    | succ i => exact ih i (Nat.lt_of_succ_lt_succ h)

theorem getq_set_ne {α : Type} (l : List α) (i j : Nat) (a : α)
    (h : i ≠ j) : (l.set i a).get? j = l.get? j := by
  induction l generalizing i j with
  | nil => rfl
  | cons b l ih =>
    cases i with
    | zero =>
      cases j with
      | zero => exact absurd rfl h
      | succ j => rfl
    | succ i =>
      cases j with
      | zero => rfl
      | succ j => exact ih i j fun hc => h (congrArg Nat.succ hc)

theorem getq_append_left {α : Type} (l m : List α) (j : Nat)
    (h : j < l.length) : (l ++ m).get? j = l.get? j := by
  induction l generalizing j with
  | nil => exact absurd h (Nat.not_lt_zero j)
  | cons b l ih =>
    cases j with
    | zero => rfl
    | succ j => exact ih j (Nat.lt_of_succ_lt_succ h)

theorem getq_append_len {α : Type} (l : List α) (a : α) :
    (l ++ [a]).get? l.length = some a := by
  induction l with
  | nil => rfl
  | cons b l ih => exact ih

theorem set_append_len {α : Type} (l : List α) (a b : α) :
    (l ++ [a]).set l.length b = l ++ [b] := by
  induction l with
  | nil => rfl
  | cons c l ih => simp [List.set, ih]

theorem getD_map {α β : Type} (f : α → β) (l : List α) (i : Nat)
    (d : α) (d' : β) (h : i < l.length) :
    (l.map f).getD i d' = f (l.getD i d) := by
  induction l generalizing i with
  | nil => exact absurd h (Nat.not_lt_zero i)
  | cons b l ih =>
    cases i with
    | zero => rfl
    | succ i => exact ih i (Nat.lt_of_succ_lt_succ h)

theorem getD_mem {α : Type} (l : List α) (i : Nat) (d : α)
    (h : i < l.length) : l.getD i d ∈ l := by
  induction l generalizing i with
  | nil => exact absurd h (Nat.not_lt_zero i)
  | cons b l ih =>
    cases i with
    | zero => exact List.mem_cons_self b l
    | succ i => exact List.mem_cons_of_mem b (ih i (Nat.lt_of_succ_lt_succ h))

/-! ### Column lookup lemmas -/

theorem colIndexL_eq_none (a : String) (l : List String) :
    colIndexL a l = none ↔ a ∉ l := by
  induction l with
  | nil => simp [colIndexL]
  | cons c rest ih =>
    by_cases hc : c = a
    · subst hc; simp [colIndexL]
    · simp only [colIndexL, if_neg hc, Option.map_eq_none', ih,
        List.mem_cons, not_or]
      constructor
      · intro hr; exact ⟨fun he => hc he.symm, hr⟩
      · intro hr; exact hr.2

theorem colIndexL_lt (a : String) (l : List String) (i : Nat)
    (h : colIndexL a l = some i) : i < l.length := by
  induction l generalizing i with
  | nil => exact absurd h (by simp [colIndexL])
  | cons c rest ih =>
    by_cases hc : c = a
    · simp only [colIndexL, if_pos hc] at h
      cases h; exact Nat.succ_pos _
    · simp only [colIndexL, if_neg hc, Option.map_eq_some'] at h
      obtain ⟨j, hj, rfl⟩ := h
      exact Nat.succ_lt_succ (ih j hj)

theorem colIndexL_getD (a : String) (l : List String) (i : Nat)
    (h : colIndexL a l = some i) : l.getD i "" = a := by
  induction l generalizing i with
  | nil => exact absurd h (by simp [colIndexL])
  | cons c rest ih =>
    by_cases hc : c = a
    · simp only [colIndexL, if_pos hc] at h
      cases h; exact hc
    · simp only [colIndexL, if_neg hc, Option.map_eq_some'] at h
      obtain ⟨j, hj, rfl⟩ := h
      exact ih j hj

theorem colIndexL_append_self (a : String) (l : List String)
    (h : a ∉ l) : colIndexL a (l ++ [a]) = some l.length := by
  induction l with
  | nil => simp [colIndexL]
  | cons c rest ih =>
    have hc : c ≠ a := fun he => h (he ▸ List.mem_cons_self c rest)
    have hr : a ∉ rest := fun hm => h (List.mem_cons_of_mem c hm)
    simp [colIndexL, hc, ih hr]

theorem colIndexL_mem (a : String) (l : List String) (i : Nat)
    (h : colIndexL a l = some i) : a ∈ l := by
  have := colIndexL_getD a l i h
  exact this ▸ getD_mem l i "" (colIndexL_lt a l i h)

/-! ### Timestamp column parsing: pointwise specification -/

theorem parseTsColumn_spec (ti : Nat) (rows rows1 : List (List Cell))
    (h : parseTsColumn ti rows = some rows1) :
    rows1.length = rows.length ∧
    ∀ i, i < rows.length → ∃ s t,
      (rows.getD i []).get? ti = some (Cell.str s) ∧
      parseTimestamp s = some t ∧
      rows1.getD i [] = (rows.getD i []).set ti (Cell.time t) := by
  induction rows generalizing rows1 with
  | nil =>
    simp only [parseTsColumn, Option.some.injEq] at h
    subst h
    exact ⟨rfl, fun i hi => absurd hi (Nat.not_lt_zero i)⟩
  | cons r rs ih =>
    simp only [parseTsColumn] at h
    split at h
    next s hg =>
      split at h
      next t hp =>
        split at h
        next rest hr =>
          simp only [Option.some.injEq] at h
          subst h
          obtain ⟨hlen, hpt⟩ := ih rest hr
          refine ⟨by simp [hlen], ?_⟩
          intro i hi
          cases i with
          | zero => exact ⟨s, t, by simpa using hg, hp, by simp⟩
          | succ i =>
            obtain ⟨s', t', h1, h2, h3⟩ :=
              hpt i (Nat.lt_of_succ_lt_succ hi)
            exact ⟨s', t', by simpa using h1, h2, by simpa using h3⟩
        next hr => exact absurd h (by simp)
      next hp => exact absurd h (by simp)
    next x hx => exact absurd h (by simp)

/-- Mapping a pointwise-identity function is the identity. -/
theorem map_id_of {α : Type} (f : α → α) (h : ∀ x, f x = x) :
    ∀ l : List α, l.map f = l := by
  intro l
  induction l with
  | nil => rfl
  | cons a l ih => simp [h, ih]

/-- With an empty anomaly list, marking is the identity. -/
theorem markRow_nil (ti ai : Nat) (r : List Cell) :
    markRow ti ai [] r = r := by
  unfold markRow
  split
  · simp
  · rfl

/-- Structural characterisation of a successful `process_csv_file` run:
the timestamp column parsed, the anomaly list parsed, and the output is
the parsed rows with the label column either overwritten in place (when a
column named `anomaly` already exists) or appended. -/
theorem process_cases (df : DataFrame) (ts : List String) (out : DataFrame)
    (h : process_csv_file df ts = some out) :
    ∃ ti rows1 l,
      colIndex df "timestamp" = some ti ∧
      parseTsColumn ti df.rows = some rows1 ∧
      parseTimes ts = some l ∧
      ((∃ ai, colIndex df "anomaly" = some ai ∧
          out = ⟨df.cols,
            (rows1.map (fun r => r.set ai (Cell.int 0))).map
              (markRow ti ai l)⟩) ∨
       (colIndex df "anomaly" = none ∧
          out = ⟨df.cols ++ ["anomaly"],
            (rows1.map (fun r => r ++ [Cell.int 0])).map
              (markRow ti df.cols.length l)⟩)) := by
  cases hti : colIndex df "timestamp" with
  | none =>
    have he : process_csv_file df ts = none := by
      simp [process_csv_file, hti]
    rw [he] at h
    exact absurd h (by simp)
  | some ti =>
  cases hrows1 : parseTsColumn ti df.rows with
  | none =>
    have he : process_csv_file df ts = none := by
      simp [process_csv_file, hti, hrows1]
    rw [he] at h
    exact absurd h (by simp)
  | some rows1 =>
  cases han : colIndex df "anomaly" with
  | some ai =>
    have han' : colIndexL "anomaly" df.cols = some ai := han
    cases hts : ts with
    | nil =>
      have he : process_csv_file df [] =
          some ⟨df.cols, rows1.map (fun r => r.set ai (Cell.int 0))⟩ := by
        simp [process_csv_file, hti, hrows1, han]
      rw [hts, he] at h
      simp only [Option.some.injEq] at h
      refine ⟨ti, rows1, [], rfl, hrows1, rfl, Or.inl ⟨ai, rfl, ?_⟩⟩
      rw [← h]
      congr 1
      exact (map_id_of _ (markRow_nil ti ai) _).symm
    | cons s rest =>
      cases hl : parseTimes (s :: rest) with
      | none =>
        have he : process_csv_file df (s :: rest) = none := by
          simp [process_csv_file, hti, hrows1, han, hl]
        rw [hts, he] at h
        exact absurd h (by simp)
      | some l =>
        have he : process_csv_file df (s :: rest) =
            some ⟨df.cols,
              (rows1.map (fun r => r.set ai (Cell.int 0))).map
                (markRow ti ai l)⟩ := by
          simp [process_csv_file, hti, hrows1, han, han', hl]
        rw [hts, he] at h
        simp only [Option.some.injEq] at h
        exact ⟨ti, rows1, l, rfl, hrows1, rfl,
          Or.inl ⟨ai, rfl, h.symm⟩⟩
  | none =>
    have han' : colIndexL "anomaly" df.cols = none := han
    have hnomem : "anomaly" ∉ df.cols := (colIndexL_eq_none _ _).mp han'
    have happ : colIndexL "anomaly" (df.cols ++ ["anomaly"])
        = some df.cols.length := colIndexL_append_self _ _ hnomem
    cases hts : ts with
    | nil =>
      have he : process_csv_file df [] =
          some ⟨df.cols ++ ["anomaly"],
            rows1.map (fun r => r ++ [Cell.int 0])⟩ := by
        simp [process_csv_file, hti, hrows1, han]
      rw [hts, he] at h
      simp only [Option.some.injEq] at h
      refine ⟨ti, rows1, [], rfl, hrows1, rfl, Or.inr ⟨rfl, ?_⟩⟩
      rw [← h]
      congr 1
      exact (map_id_of _ (markRow_nil ti df.cols.length) _).symm
    | cons s rest =>
      cases hl : parseTimes (s :: rest) with
      | none =>
        have he : process_csv_file df (s :: rest) = none := by
          simp [process_csv_file, hti, hrows1, han, hl]
        rw [hts, he] at h
        exact absurd h (by simp)
      | some l =>
        have he : process_csv_file df (s :: rest) =
            some ⟨df.cols ++ ["anomaly"],
              (rows1.map (fun r => r ++ [Cell.int 0])).map
                (markRow ti df.cols.length l)⟩ := by
          simp [process_csv_file, hti, hrows1, han, happ, hl]
        rw [hts, he] at h
        simp only [Option.some.injEq] at h
        exact ⟨ti, rows1, l, rfl, hrows1, rfl,
          Or.inr ⟨rfl, h.symm⟩⟩

/-- Pointwise specification of a successful `process_csv_file` run on a
rectangular table: the label cell of each output row is 1 exactly when the
row's parsed timestamp is among the parsed anomaly timestamps, the
timestamp cell holds the parsed value, and all other cells are unchanged. -/
theorem process_pointwise (df : DataFrame) (ts : List String)
    (out : DataFrame) (hwf : wellFormed df)
    (h : process_csv_file df ts = some out) :
    ∃ ti ai l,
      colIndex df "timestamp" = some ti ∧
      colIndex out "anomaly" = some ai ∧
      parseTimes ts = some l ∧
      out.cols = (if "anomaly" ∈ df.cols then df.cols
                  else df.cols ++ ["anomaly"]) ∧
      out.rows.length = df.rows.length ∧
      ∀ i, i < df.rows.length → ∃ s t,
        (df.rows.getD i []).get? ti = some (Cell.str s) ∧
        parseTimestamp s = some t ∧
        (out.rows.getD i []).get? ai
          = some (Cell.int (if t ∈ l then 1 else 0)) ∧
        (out.rows.getD i []).get? ti = some (Cell.time t) ∧
        (∀ j, j ≠ ti → j ≠ ai →
          (out.rows.getD i []).get? j = (df.rows.getD i []).get? j) ∧
        (out.rows.getD i []).length
          = df.cols.length + (if "anomaly" ∈ df.cols then 0 else 1) := by
  obtain ⟨ti, rows1, l, hti, hrows1, hl, hcase⟩ := process_cases df ts out h
  obtain ⟨hlen1, hpt⟩ := parseTsColumn_spec ti df.rows rows1 hrows1
  have hti_lt : ti < df.cols.length := colIndexL_lt _ _ _ hti
  have hrowlen : ∀ i, i < df.rows.length →
      (df.rows.getD i []).length = df.cols.length :=
    fun i hi => hwf _ (getD_mem _ _ _ hi)
  cases hcase with
  | inl hA =>
    obtain ⟨ai, han, hout⟩ := hA
    have hai_lt : ai < df.cols.length := colIndexL_lt _ _ _ han
    have hmem : "anomaly" ∈ df.cols := colIndexL_mem _ _ _ han
    have hne : ai ≠ ti := by
      intro he
      have h1 := colIndexL_getD _ _ _ hti
      have h2 := colIndexL_getD _ _ _ han
      rw [he, h1] at h2
      exact absurd h2 (by decide)
    refine ⟨ti, ai, l, hti, ?_, hl, ?_, ?_, ?_⟩
    · rw [hout]; exact han
    · rw [hout]; simp [hmem]
    · rw [hout]; simp [hlen1]
    · intro i hi
      obtain ⟨s, t, hs, hp2, hr1⟩ := hpt i hi
      have hi1 : i < rows1.length := by rw [hlen1]; exact hi
      have hr1len : (rows1.getD i []).length = df.cols.length := by
        rw [hr1, List.length_set]; exact hrowlen i hi
      have hrow : out.rows.getD i []
          = markRow ti ai l ((rows1.getD i []).set ai (Cell.int 0)) := by
        rw [hout]
        show (List.map (markRow ti ai l)
          (List.map (fun r => r.set ai (Cell.int 0)) rows1)).getD i [] = _
        rw [getD_map _ _ i [] [] (by simpa using hi1),
          getD_map _ _ i [] [] hi1]
      have hget_ti : (rows1.getD i []).get? ti = some (Cell.time t) := by
        rw [hr1]
        exact getq_set_self _ _ _ (by rw [hrowlen i hi]; exact hti_lt)
      have hget2_ti : ((rows1.getD i []).set ai (Cell.int 0)).get? ti
          = some (Cell.time t) := by
        rw [getq_set_ne _ _ _ _ hne]; exact hget_ti
      have hmark : markRow ti ai l ((rows1.getD i []).set ai (Cell.int 0))
          = (rows1.getD i []).set ai (Cell.int (if t ∈ l then 1 else 0)) := by
        simp only [markRow, hget2_ti]
        by_cases hm : t ∈ l
        · simp [hm, List.set_set]
        · simp [hm]
      refine ⟨s, t, hs, hp2, ?_, ?_, ?_, ?_⟩
      · rw [hrow, hmark]
        exact getq_set_self _ _ _ (by rw [hr1len]; exact hai_lt)
      · rw [hrow, hmark, getq_set_ne _ _ _ _ hne]
        exact hget_ti
      · intro j hj1 hj2
        rw [hrow, hmark, getq_set_ne _ _ _ _ (Ne.symm hj2), hr1,
          getq_set_ne _ _ _ _ (Ne.symm hj1)]
      · rw [hrow, hmark, List.length_set, hr1len]
        simp [hmem]
  | inr hB =>
    obtain ⟨han, hout⟩ := hB
    have hnomem : "anomaly" ∉ df.cols := (colIndexL_eq_none _ _).mp han
    have happ : colIndexL "anomaly" (df.cols ++ ["anomaly"])
        = some df.cols.length := colIndexL_append_self _ _ hnomem
    have hne : df.cols.length ≠ ti := (Nat.ne_of_lt hti_lt).symm
    refine ⟨ti, df.cols.length, l, hti, ?_, hl, ?_, ?_, ?_⟩
    · rw [hout]; exact happ
    · rw [hout]; simp [hnomem]
    · rw [hout]; simp [hlen1]
    · intro i hi
      obtain ⟨s, t, hs, hp2, hr1⟩ := hpt i hi
      have hi1 : i < rows1.length := by rw [hlen1]; exact hi
      have hr1len : (rows1.getD i []).length = df.cols.length := by
        rw [hr1, List.length_set]; exact hrowlen i hi
      have hrow : out.rows.getD i []
          = markRow ti df.cols.length l
              ((rows1.getD i []) ++ [Cell.int 0]) := by
        rw [hout]
        show (List.map (markRow ti df.cols.length l)
          (List.map (fun r => r ++ [Cell.int 0]) rows1)).getD i [] = _
        rw [getD_map _ _ i [] [] (by simpa using hi1),
          getD_map _ _ i [] [] hi1]
      have hget_ti : (rows1.getD i []).get? ti = some (Cell.time t) := by
        rw [hr1]
        exact getq_set_self _ _ _ (by rw [hrowlen i hi]; exact hti_lt)
      have hget2_ti : ((rows1.getD i []) ++ [Cell.int 0]).get? ti
          = some (Cell.time t) := by
        rw [getq_append_left _ _ _ (by rw [hr1len]; exact hti_lt)]
        exact hget_ti
      have hmark : markRow ti df.cols.length l
            ((rows1.getD i []) ++ [Cell.int 0])
          = (rows1.getD i []) ++ [Cell.int (if t ∈ l then 1 else 0)] := by
        simp only [markRow, hget2_ti]
        by_cases hm : t ∈ l
        · rw [if_pos hm, if_pos hm,
            show df.cols.length = (rows1.getD i []).length from hr1len.symm,
            set_append_len]
        · simp [hm]
      refine ⟨s, t, hs, hp2, ?_, ?_, ?_, ?_⟩
      · rw [hrow, hmark,
          show df.cols.length = (rows1.getD i []).length from hr1len.symm]
        exact getq_append_len _ _
      · rw [hrow, hmark, getq_append_left _ _ _ (by rw [hr1len]; exact hti_lt)]
        exact hget_ti
      · intro j hj1 hj2
        rcases Nat.lt_trichotomy j df.cols.length with hlt | heq | hgt
        · rw [hrow, hmark, getq_append_left _ _ _ (by rw [hr1len]; exact hlt),
            hr1, getq_set_ne _ _ _ _ (Ne.symm hj1)]
        · exact absurd heq hj2
        · have hout_none : (out.rows.getD i []).get? j = none := by
            rw [List.get?_eq_none, hrow, hmark]
            simp only [List.length_append, hr1len, List.length_singleton]
            omega
          have hdf_none : (df.rows.getD i []).get? j = none := by
            rw [List.get?_eq_none, hrowlen i hi]
            omega
          rw [hout_none, hdf_none]
      · rw [hrow, hmark, List.length_append, hr1len]
        simp [hnomem]

/-- A successful run never changes the number of rows. -/
theorem process_rows_length (df : DataFrame) (ts : List String)
    (out : DataFrame) (h : process_csv_file df ts = some out) :
    out.rows.length = df.rows.length := by
  obtain ⟨ti, rows1, l, hti, hrows1, hl, hcase⟩ := process_cases df ts out h
  obtain ⟨hlen1, -⟩ := parseTsColumn_spec ti df.rows rows1 hrows1
  cases hcase with
  | inl hA => obtain ⟨ai, -, hout⟩ := hA; rw [hout]; simp [hlen1]
  | inr hB => obtain ⟨-, hout⟩ := hB; rw [hout]; simp [hlen1]

/-- A column of zeros sums to zero. -/
theorem sumLabels_eq_zero (ai : Nat) (rows : List (List Cell))
    (h : ∀ r ∈ rows, r.get? ai = some (Cell.int 0)) :
    sumLabels ai rows = 0 := by
  induction rows with
  | nil => rfl
  | cons r rest ih =>
    have hr := h r (List.mem_cons_self r rest)
    simp only [sumLabels, hr]
    rw [ih (fun r' hr' => h r' (List.mem_cons_of_mem r hr'))]
    simp

/-- Every member of a list is reached by `getD` at some valid index. -/
theorem mem_exists_getD {α : Type} (l : List α) (r d : α) (h : r ∈ l) :
    ∃ i, i < l.length ∧ l.getD i d = r := by
  induction l with
  | nil => exact absurd h (List.not_mem_nil r)
  | cons a rest ih =>
    rcases List.mem_cons.mp h with rfl | hm
    · exact ⟨0, Nat.succ_pos _, rfl⟩
    · obtain ⟨i, hi, hg⟩ := ih hm
      exact ⟨i + 1, Nat.succ_lt_succ hi, hg⟩

/-- Without a `timestamp` column, processing raises (models the
`KeyError` that the spec calls a `SchemaError`). -/
theorem process_none_of_no_ts_col (df : DataFrame) (ts : List String)
    (hcol : colIndex df "timestamp" = none) :
    process_csv_file df ts = none := by
  simp [process_csv_file, hcol]

/-- Each label-index entry bumps exactly one of the two counters. -/
theorem processEntries_counts (dd : String) (od : Option String)
    (labels : List (String × List String)) :
    ∀ st : RunState,
      (processEntries dd od labels st).processed_count
          + (processEntries dd od labels st).error_count
        = st.processed_count + st.error_count + labels.length := by
  induction labels with
  | nil => intro st; simp [processEntries]
  | cons e rest ih =>
    intro st
    obtain ⟨p, ts⟩ := e
    cases hf : fsGet st.fs (pathJoin dd p) with
    | none =>
      simp only [processEntries, hf]
      rw [ih]
      simp [Nat.add_assoc, Nat.add_comm, Nat.add_left_comm]
    | some df =>
      cases hp : process_csv_file df ts with
      | none =>
        simp only [processEntries, hf, hp]
        rw [ih]
        simp [Nat.add_assoc, Nat.add_comm, Nat.add_left_comm]
      | some out =>
        simp only [processEntries, hf, hp]
        rw [ih]
        simp [Nat.add_assoc, Nat.add_comm, Nat.add_left_comm]

/-- A write at a different path does not change a lookup. -/
theorem fsGet_set_ne (fs : FS) (p q : String) (df : DataFrame)
    (h : p ≠ q) : fsGet (fsSet fs p df) q = fsGet fs q := by
  simp [fsSet, fsGet, h]

/-- In mirrored mode, a run only writes under the output directory: any
path that is no entry's output path reads back unchanged. -/
theorem processEntries_fs_untouched (dd od : String)
    (labels : List (String × List String)) :
    ∀ (st : RunState) (path : String),
      (∀ p ∈ labels.map Prod.fst, path ≠ pathJoin od p) →
      fsGet (processEntries dd (some od) labels st).fs path
        = fsGet st.fs path := by
  induction labels with
  | nil => intro st path _; rfl
  | cons e rest ih =>
    intro st path h
    obtain ⟨p, ts⟩ := e
    have hrest : ∀ q ∈ rest.map Prod.fst, path ≠ pathJoin od q :=
      fun q hq => h q (by simp [hq])
    have hp : path ≠ pathJoin od p := h p (by simp)
    cases hf : fsGet st.fs (pathJoin dd p) with
    | none => simp only [processEntries, hf]; exact ih _ _ hrest
    | some df =>
      cases hpr : process_csv_file df ts with
      | none => simp only [processEntries, hf, hpr]; exact ih _ _ hrest
      | some out =>
        simp only [processEntries, hf, hpr]
        rw [ih _ _ hrest]
        exact fsGet_set_ne _ _ _ _ (Ne.symm hp)

/-- Determinism of the mirrored-mode write log: two starting states that
agree on the contents of every referenced data file produce the same
sequence of writes, provided no output path collides with a data path. -/
theorem processEntries_writes_det (dd od : String)
    (labels : List (String × List String)) :
    ∀ st1 st2 : RunState,
      (∀ q ∈ labels.map Prod.fst,
        fsGet st1.fs (pathJoin dd q) = fsGet st2.fs (pathJoin dd q)) →
      (∀ p ∈ labels.map Prod.fst, ∀ q ∈ labels.map Prod.fst,
        pathJoin od p ≠ pathJoin dd q) →
      ∃ w, (processEntries dd (some od) labels st1).writes
              = st1.writes ++ w ∧
           (processEntries dd (some od) labels st2).writes
              = st2.writes ++ w := by
  induction labels with
  | nil => intro st1 st2 _ _; exact ⟨[], by simp [processEntries], by simp [processEntries]⟩
  | cons e rest ih =>
    intro st1 st2 hdata H
    obtain ⟨p, ts⟩ := e
    have hpk : p ∈ (((p, ts) :: rest).map Prod.fst) := by simp
    have hq := hdata p hpk
    have hdrest : ∀ q ∈ rest.map Prod.fst,
        fsGet st1.fs (pathJoin dd q) = fsGet st2.fs (pathJoin dd q) :=
      fun q hq' => hdata q (by simp [hq'])
    have Hrest : ∀ p' ∈ rest.map Prod.fst, ∀ q' ∈ rest.map Prod.fst,
        pathJoin od p' ≠ pathJoin dd q' :=
      fun p' hp' q' hq' => H p' (by simp [hp']) q' (by simp [hq'])
    cases hf : fsGet st1.fs (pathJoin dd p) with
    | none =>
      have hf2 : fsGet st2.fs (pathJoin dd p) = none := hq ▸ hf
      obtain ⟨w, h1, h2⟩ := ih
        { st1 with error_count := st1.error_count + 1 }
        { st2 with error_count := st2.error_count + 1 } hdrest Hrest
      exact ⟨w, by simpa [processEntries, hf] using h1,
        by simpa [processEntries, hf2] using h2⟩
    | some df =>
      have hf2 : fsGet st2.fs (pathJoin dd p) = some df := hq ▸ hf
      cases hpr : process_csv_file df ts with
      | none =>
        obtain ⟨w, h1, h2⟩ := ih
          { st1 with error_count := st1.error_count + 1 }
          { st2 with error_count := st2.error_count + 1 } hdrest Hrest
        exact ⟨w, by simpa [processEntries, hf, hpr] using h1,
          by simpa [processEntries, hf2, hpr] using h2⟩
      | some out =>
        have hsetdata : ∀ q' ∈ rest.map Prod.fst,
            fsGet (fsSet st1.fs (pathJoin od p) out) (pathJoin dd q')
              = fsGet (fsSet st2.fs (pathJoin od p) out) (pathJoin dd q') := by
          intro q' hq'
          have hne : pathJoin od p ≠ pathJoin dd q' :=
            H p hpk q' (by simp [hq'])
          rw [fsGet_set_ne _ _ _ _ hne, fsGet_set_ne _ _ _ _ hne]
          exact hdrest q' hq'
        obtain ⟨w, h1, h2⟩ := ih
          { st1 with
              processed_count := st1.processed_count + 1
              writes := st1.writes ++ [(pathJoin od p, out)]
              fs := fsSet st1.fs (pathJoin od p) out }
          { st2 with
              processed_count := st2.processed_count + 1
              writes := st2.writes ++ [(pathJoin od p, out)]
              fs := fsSet st2.fs (pathJoin od p) out } hsetdata Hrest
        refine ⟨(pathJoin od p, out) :: w, ?_, ?_⟩
        · have := h1
          simp only [processEntries, hf, hpr]
          simpa [List.append_assoc] using this
        · have := h2
          simp only [processEntries, hf2, hpr]
          simpa [List.append_assoc] using this

/-- The scenario table labeled with an empty anomaly list. -/
def sensorAEmptyOut : DataFrame := (process_csv_file sensorA []).getD ⟨[], []⟩

/-- An input table that already carries an `anomaly` column. -/
def preAnomDf : DataFrame :=
  ⟨["timestamp", "anomaly"],
   [[Cell.str "2024-01-01T00:00:00", Cell.str "x"]]⟩

/-- What the script produces on `preAnomDf`. -/
def preAnomOut : DataFrame := (process_csv_file preAnomDf []).getD ⟨[], []⟩

/-- An input table with no `timestamp` column. -/
def noTsDf : DataFrame := ⟨["value"], [[Cell.str "1"]]⟩

/-- An input table whose timestamp cell does not parse. -/
def badTsDf : DataFrame := ⟨["timestamp"], [[Cell.str "not-a-date"]]⟩

/-- C1: for every data file processed, every row's added label is 0 or 1,
and it is 1 exactly when the row's parsed timestamp equals one of the
parsed anomaly timestamps supplied for that file (exact equality, no
tolerance). -/
theorem anomaly_label_iff (df : DataFrame) (ts : List String)
    (out : DataFrame) (hwf : wellFormed df)
    (h : process_csv_file df ts = some out) :
    ∃ ti ai l,
      colIndex df "timestamp" = some ti ∧
      colIndex out "anomaly" = some ai ∧
      parseTimes ts = some l ∧
      out.rows.length = df.rows.length ∧
      ∀ i, i < df.rows.length → ∃ t,
        ((out.rows.getD i []).get? ai = some (Cell.int 0) ∨
         (out.rows.getD i []).get? ai = some (Cell.int 1)) ∧
        (∃ s, (df.rows.getD i []).get? ti = some (Cell.str s) ∧
          parseTimestamp s = some t) ∧
        ((out.rows.getD i []).get? ai = some (Cell.int 1) ↔ t ∈ l) := by
  obtain ⟨ti, ai, l, hti, hai, hl, -, hlen, hpt⟩ :=
    process_pointwise df ts out hwf h
  refine ⟨ti, ai, l, hti, hai, hl, hlen, ?_⟩
  intro i hi
  obtain ⟨s, t, hs, hp2, hlab, -, -, -⟩ := hpt i hi
  refine ⟨t, ?_, ⟨s, hs, hp2⟩, ?_⟩
  · by_cases hm : t ∈ l
    · right; rw [hlab, if_pos hm]
    · left; rw [hlab, if_neg hm]
  · constructor
    · intro h1
      by_contra hm
      rw [hlab, if_neg hm] at h1
      simp at h1
    · intro hm
      rw [hlab, if_pos hm]

/-- C1 witness: the spec's scenario, labels 0, 1, 0 and counts
total=3, anomaly=1, normal=2. -/
theorem anomaly_label_iff_witness :
    (wellFormed sensorA ∧
      process_csv_file sensorA sensorALabels = some sensorAOut) ∧
    (∃ ti ai l,
      colIndex sensorA "timestamp" = some ti ∧
      colIndex sensorAOut "anomaly" = some ai ∧
      parseTimes sensorALabels = some l ∧
      sensorAOut.rows.length = sensorA.rows.length ∧
      ∀ i, i < sensorA.rows.length → ∃ t,
        ((sensorAOut.rows.getD i []).get? ai = some (Cell.int 0) ∨
         (sensorAOut.rows.getD i []).get? ai = some (Cell.int 1)) ∧
        (∃ s, (sensorA.rows.getD i []).get? ti = some (Cell.str s) ∧
          parseTimestamp s = some t) ∧
        ((sensorAOut.rows.getD i []).get? ai = some (Cell.int 1) ↔ t ∈ l)) ∧
    (labelValues sensorAOut
        = [some (Cell.int 0), some (Cell.int 1), some (Cell.int 0)] ∧
      total_points sensorAOut = 3 ∧
      anomaly_points sensorAOut = 1 ∧
      (total_points sensorAOut : Int) - anomaly_points sensorAOut = 2) :=
  ⟨⟨by decide, rfl⟩,
   anomaly_label_iff sensorA sensorALabels sensorAOut (by decide) rfl,
   by decide⟩

/-- C2: adding the label column never drops or duplicates rows: the
output has exactly as many rows as the input. -/
theorem output_row_count_eq (df : DataFrame) (ts : List String)
    (out : DataFrame) (h : process_csv_file df ts = some out) :
    total_points out = total_points df :=
  process_rows_length df ts out h

/-- C2 witness at the scenario input. -/
theorem output_row_count_eq_witness :
    process_csv_file sensorA sensorALabels = some sensorAOut ∧
    total_points sensorAOut = total_points sensorA :=
  ⟨rfl, output_row_count_eq sensorA sensorALabels sensorAOut rfl⟩

/-- C3: with an empty anomaly list every row is labeled 0 and the
anomaly count is 0. -/
theorem empty_labels_all_zero (df : DataFrame) (out : DataFrame)
    (hwf : wellFormed df) (h : process_csv_file df [] = some out) :
    ∃ ai, colIndex out "anomaly" = some ai ∧
      (∀ r ∈ out.rows, r.get? ai = some (Cell.int 0)) ∧
      anomaly_points out = 0 := by
  obtain ⟨ti, ai, l, hti, hai, hl, -, hlen, hpt⟩ :=
    process_pointwise df [] out hwf h
  have hlnil : l = [] := by
    simp only [parseTimes, Option.some.injEq] at hl
    exact hl.symm
  subst hlnil
  have hall : ∀ r ∈ out.rows, r.get? ai = some (Cell.int 0) := by
    intro r hr
    obtain ⟨i, hi, hg⟩ := mem_exists_getD out.rows r [] hr
    rw [hlen] at hi
    obtain ⟨s, t, -, -, hlab, -, -, -⟩ := hpt i hi
    rw [← hg]
    simpa using hlab
  refine ⟨ai, hai, hall, ?_⟩
  simp only [anomaly_points, hai]
  exact sumLabels_eq_zero ai out.rows hall

/-- C3 witness: the scenario table with an empty anomaly list. -/
theorem empty_labels_all_zero_witness :
    wellFormed sensorA ∧
    process_csv_file sensorA [] = some sensorAEmptyOut ∧
    ∃ ai, colIndex sensorAEmptyOut "anomaly" = some ai ∧
      (∀ r ∈ sensorAEmptyOut.rows, r.get? ai = some (Cell.int 0)) ∧
      anomaly_points sensorAEmptyOut = 0 :=
  ⟨by decide, rfl,
   empty_labels_all_zero sensorA sensorAEmptyOut (by decide) rfl⟩

/-- C4: a label-index load failure aborts the run before any data file
is read, labeled or written: the orchestrator produces no run state, no
writes, and touches no file. -/
theorem label_load_error_aborts (fs : FS) (dd : String)
    (od : Option String) :
    combine_datasets_with_labels fs dd none od = none := rfl

/-- C5: a missing data file is non-fatal and per-file: the entry only
increments the error count by exactly 1, writes nothing, changes no file,
and the remaining entries are processed exactly as they would be. -/
theorem missing_file_nonfatal (dd : String) (od : Option String)
    (p : String) (ts : List String)
    (rest : List (String × List String)) (st : RunState)
    (h : fsGet st.fs (pathJoin dd p) = none) :
    processEntries dd od ((p, ts) :: rest) st
      = processEntries dd od rest
          { st with error_count := st.error_count + 1 } := by
  simp only [processEntries, h]

/-- C5 witness: a one-entry index whose file does not exist. -/
theorem missing_file_nonfatal_witness :
    fsGet ([] : FS) (pathJoin "data" "x.csv") = none ∧
    processEntries "data" none [("x.csv", [])] ⟨0, 0, [], []⟩
      = processEntries "data" none [] ⟨0, 1, [], []⟩ :=
  ⟨rfl, missing_file_nonfatal "data" none "x.csv" [] [] ⟨0, 0, [], []⟩ rfl⟩

/-- C6: a data file without a `timestamp` column, or whose timestamp
column contains an unparsable value, makes `process_csv_file` fail, and
the per-file handler counts it as one error, writes nothing for that
file, and continues with the remaining entries. -/
theorem no_ts_col_nonfatal (df : DataFrame) (ts : List String)
    (hcol : colIndex df "timestamp" = none ∨
      ∃ ti, colIndex df "timestamp" = some ti ∧
        parseTsColumn ti df.rows = none) :
    process_csv_file df ts = none ∧
    ∀ (dd : String) (od : Option String) (p : String)
      (rest : List (String × List String)) (st : RunState),
      fsGet st.fs (pathJoin dd p) = some df →
      processEntries dd od ((p, ts) :: rest) st
        = processEntries dd od rest
            { st with error_count := st.error_count + 1 } := by
  have hn : process_csv_file df ts = none := by
    rcases hcol with hc | ⟨ti, hti, hbad⟩
    · exact process_none_of_no_ts_col df ts hc
    · simp [process_csv_file, hti, hbad]
  refine ⟨hn, ?_⟩
  intro dd od p rest st hf
  simp only [processEntries, hf, hn]

/-- C6 witness: a table with only a `value` column, and a table whose
timestamp cell does not parse; both are counted and skipped. -/
theorem no_ts_col_nonfatal_witness :
    (colIndex noTsDf "timestamp" = none ∧
      process_csv_file noTsDf [] = none ∧
      processEntries "data" none [("a.csv", [])]
          ⟨0, 0, [], [(pathJoin "data" "a.csv", noTsDf)]⟩
        = processEntries "data" none []
            ⟨0, 1, [], [(pathJoin "data" "a.csv", noTsDf)]⟩) ∧
    (colIndex badTsDf "timestamp" = some 0 ∧
      parseTsColumn 0 badTsDf.rows = none ∧
      process_csv_file badTsDf [] = none ∧
      processEntries "data" none [("b.csv", [])]
          ⟨0, 0, [], [(pathJoin "data" "b.csv", badTsDf)]⟩
        = processEntries "data" none []
            ⟨0, 1, [], [(pathJoin "data" "b.csv", badTsDf)]⟩) :=
  ⟨⟨by decide, (no_ts_col_nonfatal noTsDf [] (Or.inl (by decide))).1,
    (no_ts_col_nonfatal noTsDf [] (Or.inl (by decide))).2 "data" none
      "a.csv" [] ⟨0, 0, [], [(pathJoin "data" "a.csv", noTsDf)]⟩
      (by decide)⟩,
   ⟨by decide, by decide,
    (no_ts_col_nonfatal badTsDf []
      (Or.inr ⟨0, by decide, by decide⟩)).1,
    (no_ts_col_nonfatal badTsDf []
      (Or.inr ⟨0, by decide, by decide⟩)).2 "data" none
      "b.csv" [] ⟨0, 0, [], [(pathJoin "data" "b.csv", badTsDf)]⟩
      (by decide)⟩⟩

/-- C7 counterexample: on an input that already has an `anomaly` column,
the file processes successfully but no label column is appended as a new
last column — the existing `anomaly` column is overwritten in place — and
the original values of that column (and of the `timestamp` column, which
is replaced by parsed temporal values) are not preserved. -/
theorem label_append_cex :
    process_csv_file preAnomDf [] = some preAnomOut ∧
    preAnomOut.cols ≠ preAnomDf.cols ++ ["anomaly"] ∧
    (preAnomOut.rows.getD 0 []).get? 1 ≠ (preAnomDf.rows.getD 0 []).get? 1 ∧
    (preAnomOut.rows.getD 0 []).get? 0 ≠ (preAnomDf.rows.getD 0 []).get? 0 :=
  ⟨rfl, by decide, by decide, by decide⟩

/-- C7 amended: for every successfully processed rectangular input with
no pre-existing `anomaly` column, the output keeps all original columns
in their original order, non-`timestamp` cells unchanged, each
`timestamp` cell holding exactly the parsed value of that row's original
timestamp string, and the integer label column appended last. -/
theorem label_append_amended (df : DataFrame) (ts : List String)
    (out : DataFrame) (hwf : wellFormed df)
    (hno : "anomaly" ∉ df.cols)
    (h : process_csv_file df ts = some out) :
    out.cols = df.cols ++ ["anomaly"] ∧
    ∃ ti, colIndex df "timestamp" = some ti ∧
      ∀ i, i < df.rows.length →
        (∀ j, j < df.cols.length → j ≠ ti →
          (out.rows.getD i []).get? j = (df.rows.getD i []).get? j) ∧
        (∃ s t, (df.rows.getD i []).get? ti = some (Cell.str s) ∧
          parseTimestamp s = some t ∧
          (out.rows.getD i []).get? ti = some (Cell.time t)) ∧
        (∃ v, (out.rows.getD i []).get? df.cols.length
          = some (Cell.int v)) ∧
        (out.rows.getD i []).length = df.cols.length + 1 := by
  obtain ⟨ti, ai, l, hti, hai, hl, hcols, hlen, hpt⟩ :=
    process_pointwise df ts out hwf h
  have hcols' : out.cols = df.cols ++ ["anomaly"] := by
    rw [hcols, if_neg hno]
  have hai' : ai = df.cols.length := by
    have h2 : colIndex out "anomaly" = some df.cols.length := by
      show colIndexL "anomaly" out.cols = some df.cols.length
      rw [hcols']
      exact colIndexL_append_self _ _ hno
    exact Option.some.inj (hai.symm.trans h2)
  subst hai'
  refine ⟨hcols', ti, hti, ?_⟩
  intro i hi
  obtain ⟨s, t, hs, hp2, hlab, htime, hother, hlength⟩ := hpt i hi
  refine ⟨?_, ⟨s, t, hs, hp2, htime⟩, ⟨if t ∈ l then 1 else 0, hlab⟩, ?_⟩
  · intro j hj hjne
    exact hother j hjne (Nat.ne_of_lt hj)
  · rw [hlength, if_neg hno]

/-- C7 witness: the scenario input satisfies the amended guarantee. -/
theorem label_append_amended_witness :
    (wellFormed sensorA ∧ "anomaly" ∉ sensorA.cols ∧
      process_csv_file sensorA sensorALabels = some sensorAOut) ∧
    (sensorAOut.cols = sensorA.cols ++ ["anomaly"] ∧
     ∃ ti, colIndex sensorA "timestamp" = some ti ∧
      ∀ i, i < sensorA.rows.length →
        (∀ j, j < sensorA.cols.length → j ≠ ti →
          (sensorAOut.rows.getD i []).get? j
            = (sensorA.rows.getD i []).get? j) ∧
        (∃ s t, (sensorA.rows.getD i []).get? ti = some (Cell.str s) ∧
          parseTimestamp s = some t ∧
          (sensorAOut.rows.getD i []).get? ti = some (Cell.time t)) ∧
        (∃ v, (sensorAOut.rows.getD i []).get? sensorA.cols.length
          = some (Cell.int v)) ∧
        (sensorAOut.rows.getD i []).length = sensorA.cols.length + 1) :=
  ⟨⟨by decide, by decide, rfl⟩,
   label_append_amended sensorA sensorALabels sensorAOut
     (by decide) (by decide) rfl⟩

/-- C8: rerunning the pipeline in mirrored-output mode on the same label
index over the filesystem left by the first run produces the identical
write log (hence byte-identical labeled outputs), provided no mirrored
output path collides with a referenced data path. -/
theorem mirrored_rerun_same_writes (fs : FS) (dd od : String)
    (labels : List (String × List String))
    (H : ∀ p ∈ labels.map Prod.fst, ∀ q ∈ labels.map Prod.fst,
      pathJoin od p ≠ pathJoin dd q) :
    (processEntries dd (some od) labels
        ⟨0, 0, [],
          (processEntries dd (some od) labels ⟨0, 0, [], fs⟩).fs⟩).writes
      = (processEntries dd (some od) labels ⟨0, 0, [], fs⟩).writes := by
  have hdata : ∀ q ∈ labels.map Prod.fst,
      fsGet (processEntries dd (some od) labels ⟨0, 0, [], fs⟩).fs
          (pathJoin dd q)
        = fsGet fs (pathJoin dd q) := by
    intro q hq
    exact processEntries_fs_untouched dd od labels _ _
      (fun p hp => (H p hp q hq).symm)
  obtain ⟨w, h1, h2⟩ := processEntries_writes_det dd od labels
    ⟨0, 0, [], (processEntries dd (some od) labels ⟨0, 0, [], fs⟩).fs⟩
    ⟨0, 0, [], fs⟩ hdata H
  rw [h1, h2]

/-- C8 witness: the scenario file under `data/`, mirrored into `out/`. -/
theorem mirrored_rerun_same_writes_witness :
    (∀ p ∈ ([("sensorA.csv", sensorALabels)].map Prod.fst),
      ∀ q ∈ ([("sensorA.csv", sensorALabels)].map Prod.fst),
      pathJoin "out" p ≠ pathJoin "data" q) ∧
    (processEntries "data" (some "out") [("sensorA.csv", sensorALabels)]
        ⟨0, 0, [],
          (processEntries "data" (some "out")
            [("sensorA.csv", sensorALabels)]
            ⟨0, 0, [], [(pathJoin "data" "sensorA.csv", sensorA)]⟩).fs⟩).writes
      = (processEntries "data" (some "out") [("sensorA.csv", sensorALabels)]
          ⟨0, 0, [], [(pathJoin "data" "sensorA.csv", sensorA)]⟩).writes :=
  ⟨by decide,
   mirrored_rerun_same_writes [(pathJoin "data" "sensorA.csv", sensorA)]
     "data" "out" [("sensorA.csv", sensorALabels)] (by decide)⟩

/-- C9: once the label index loads, every entry bumps exactly one of the
two counters, so processed + errors equals the number of entries. -/
theorem run_counts_partition (fs : FS) (dd : String)
    (labels : List (String × List String)) (od : Option String) :
    ∃ st, combine_datasets_with_labels fs dd (some labels) od = some st ∧
      st.processed_count + st.error_count = labels.length :=
  ⟨processEntries dd od labels ⟨0, 0, [], fs⟩, rfl, by
    have := processEntries_counts dd od labels ⟨0, 0, [], fs⟩
    simpa using this⟩

/-- C10: exactly the input string "2" selects mirrored-output mode; every
other input (including "1", the empty string, and invalid text) selects
in-place overwrite mode. -/
theorem mode_choice_iff (s : String) :
    (chooseRunMode s = RunMode.mirrored ↔ s = "2") ∧
    chooseRunMode s
      = (if s = "2" then RunMode.mirrored else RunMode.overwrite) := by
  refine ⟨?_, rfl⟩
  unfold chooseRunMode
  by_cases h : s = "2"
  · simp [h]
  · simp [h]
